import Mathlib

/-!
Shallow embedding of the player movement / breathing / weapon-offset
pipeline of `src/main.rs` and `src/movement.rs` (a Bevy/avian3d
first-person demo), together with proofs of the specification's claims.

`f32` values are modelled as exact rationals (`ℚ`); the one place where
IEEE semantics matter (the division `speed / depth` in `Breath::breath`,
where `0.0 / 0.0` is NaN and `x / 0.0` is `+inf` for `x > 0`) is modelled
explicitly, see `Breath.breath` below.  Fallible operations (Bevy's
`Curve::sample`, which returns `None` outside the curve domain) return
`Option`; a Rust `panic!`/`unwrap` on such a value is modelled as an
`Except Unit` error result.
-/

namespace BevyEnergy

/-- Rust `f32::clamp(lo, hi)` (for `lo ≤ hi`, on non-NaN input). -/
def clampQ (v lo hi : ℚ) : ℚ := max lo (min v hi)

/-- glam `Vec3`, with `f32` components modelled as `ℚ`. -/
structure Vec3 where
  x : ℚ
  y : ℚ
  z : ℚ
deriving DecidableEq, Repr

/-- glam `Vec2` (used for the 2-D movement intent direction). -/
structure Vec2 where
  x : ℚ
  y : ℚ
deriving DecidableEq, Repr

namespace Vec3

def add (a b : Vec3) : Vec3 := ⟨a.x + b.x, a.y + b.y, a.z + b.z⟩

instance : Add Vec3 := ⟨Vec3.add⟩

instance : Zero Vec3 := ⟨⟨0, 0, 0⟩⟩

def sub (a b : Vec3) : Vec3 := ⟨a.x - b.x, a.y - b.y, a.z - b.z⟩

instance : Sub Vec3 := ⟨Vec3.sub⟩

/-- glam `Vec3 * f32` (componentwise scaling). -/
def scale (a : Vec3) (k : ℚ) : Vec3 := ⟨a.x * k, a.y * k, a.z * k⟩

instance : HMul Vec3 ℚ Vec3 := ⟨Vec3.scale⟩

/-- glam `Vec3::dot`. -/
def dot (a b : Vec3) : ℚ := a.x * b.x + a.y * b.y + a.z * b.z

/-- glam `Vec3::cross`. -/
def cross (a b : Vec3) : Vec3 :=
  ⟨a.y * b.z - a.z * b.y, a.z * b.x - a.x * b.z, a.x * b.y - a.y * b.x⟩

@[simp] theorem add_x (a b : Vec3) : (a + b).x = a.x + b.x := rfl
@[simp] theorem add_y (a b : Vec3) : (a + b).y = a.y + b.y := rfl
@[simp] theorem add_z (a b : Vec3) : (a + b).z = a.z + b.z := rfl
@[simp] theorem sub_x (a b : Vec3) : (a - b).x = a.x - b.x := rfl
@[simp] theorem sub_y (a b : Vec3) : (a - b).y = a.y - b.y := rfl
@[simp] theorem sub_z (a b : Vec3) : (a - b).z = a.z - b.z := rfl
@[simp] theorem scale_x (a : Vec3) (k : ℚ) : (a * k).x = a.x * k := rfl
@[simp] theorem scale_y (a : Vec3) (k : ℚ) : (a * k).y = a.y * k := rfl
@[simp] theorem scale_z (a : Vec3) (k : ℚ) : (a * k).z = a.z * k := rfl
@[simp] theorem zero_x : (0 : Vec3).x = 0 := rfl
@[simp] theorem zero_y : (0 : Vec3).y = 0 := rfl
@[simp] theorem zero_z : (0 : Vec3).z = 0 := rfl

theorem ext' {a b : Vec3} (hx : a.x = b.x) (hy : a.y = b.y) (hz : a.z = b.z) :
    a = b := by
  cases a; cases b; simp_all

theorem add_def (a b : Vec3) : a + b = ⟨a.x + b.x, a.y + b.y, a.z + b.z⟩ := rfl
theorem sub_def (a b : Vec3) : a - b = ⟨a.x - b.x, a.y - b.y, a.z - b.z⟩ := rfl
theorem scale_def (a : Vec3) (k : ℚ) : a * k = ⟨a.x * k, a.y * k, a.z * k⟩ := rfl
theorem zero_def : (0 : Vec3) = ⟨0, 0, 0⟩ := rfl

instance : AddCommMonoid Vec3 where
  add_assoc a b c := by apply ext' <;> simp [add_assoc]
  zero_add a := by apply ext' <;> simp
  add_zero a := by apply ext' <;> simp
  add_comm a b := by apply ext' <;> simp [add_comm]
  nsmul := nsmulRec

end Vec3

/-- glam `Quat` (rotation quaternion, components modelled as `ℚ`). -/
structure Quat where
  x : ℚ
  y : ℚ
  z : ℚ
  w : ℚ
deriving DecidableEq, Repr

/-- glam `Quat::mul_vec3`:
`rhs * (w*w - b.dot(b)) + b * (rhs.dot(b) * 2) + b.cross(rhs) * (w * 2)`
with `b = (x, y, z)` the vector part of the quaternion. -/
def Quat.mulVec3 (q : Quat) (rhs : Vec3) : Vec3 :=
  let b : Vec3 := ⟨q.x, q.y, q.z⟩
  rhs * (q.w * q.w - Vec3.dot b b) + b * (Vec3.dot rhs b * 2) +
    Vec3.cross b rhs * (q.w * 2)

/-- Squared norms transform with the quaternion's squared norm squared:
`|q · v|² = (|q|²)² · |v|²` (so unit quaternions preserve the norm). -/
theorem Quat.mulVec3_normSq (q : Quat) (v : Vec3) :
    (q.mulVec3 v).x ^ 2 + (q.mulVec3 v).y ^ 2 + (q.mulVec3 v).z ^ 2 =
      (q.w ^ 2 + q.x ^ 2 + q.y ^ 2 + q.z ^ 2) ^ 2 *
        (v.x ^ 2 + v.y ^ 2 + v.z ^ 2) := by
  simp only [Quat.mulVec3, Vec3.dot, Vec3.cross, Vec3.add_x, Vec3.add_y,
    Vec3.add_z, Vec3.scale_x, Vec3.scale_y, Vec3.scale_z]
  ring

/-- The subset of Bevy's `EaseFunction` used by this program. -/
inductive EaseFunction where
  | smoothStep
  | quarticOut
  | quinticInOut
deriving DecidableEq, Repr

/-- The underlying easing maps (Bevy `bevy_math::curve::easing`):
smooth step `t²(3 − 2t)`, quartic out `1 − (1 − t)⁴`, quintic in-out. -/
def EaseFunction.eval : EaseFunction → ℚ → ℚ
  | .smoothStep, t => t * t * (3 - 2 * t)
  | .quarticOut, t => 1 - (1 - t) ^ 4
  | .quinticInOut, t => if t < 1 / 2 then 16 * t ^ 5 else 1 - (-2 * t + 2) ^ 5 / 2

/-- Bevy `EasingCurve::new(start, end, f).sample(t)`: the curve's domain is
the unit interval, and sampling outside it yields `none`; inside it the
sample is `start + (end − start) * f t`. -/
def easingSample (startV endV : ℚ) (f : EaseFunction) (t : ℚ) : Option ℚ :=
  if 0 ≤ t ∧ t ≤ 1 then some (startV + (endV - startV) * f.eval t) else none

/-- `BreathDirection` (`src/main.rs`). -/
inductive BreathDirection where
  | In
  | Out
deriving DecidableEq, Repr

/-- The direction toggle in `Breath::breath`:
`if direction == In { Out } else { In }`. -/
def BreathDirection.flip : BreathDirection → BreathDirection
  | .In => .Out
  | .Out => .In

/-- `Breath` component (`src/main.rs`). -/
structure Breath where
  speed : ℚ
  alpha : ℚ
  amount : ℚ
  depth : ℚ
  direction : BreathDirection
deriving DecidableEq, Repr

namespace Breath

/-- `Breath::MAX_SPEED`. -/
def MAX_SPEED : ℚ := 10

/-- `Breath::MAX_DEPTH`. -/
def MAX_DEPTH : ℚ := 5

/-- `(self.speed / self.depth).clamp(0.0, Self::MAX_SPEED)` for the
arguments already clamped to their ranges, in the cases where f32 division
gives a number or `+inf`: for `depth = 0` and `speed > 0` the quotient is
`+inf`, which clamps to `MAX_SPEED`.  The remaining case
(`speed = 0 ∧ depth = 0`, NaN) is handled in `Breath.breath`. -/
def breathingRate (speed depth : ℚ) : ℚ :=
  if depth = 0 then MAX_SPEED else clampQ (speed / depth) 0 MAX_SPEED

/-- `self.alpha + breathing_rate * delta` (with speed/depth clamped first,
as `Breath::breath` does). -/
def rawAlpha (b : Breath) (delta : ℚ) : ℚ :=
  b.alpha + breathingRate (clampQ b.speed 0 MAX_SPEED) (clampQ b.depth 0 MAX_DEPTH) * delta

/-- `let change_breath = self.alpha >= 1.0 || self.alpha <= 0.0` after the
alpha increment. -/
def changeBreath (b : Breath) (delta : ℚ) : Prop :=
  1 ≤ rawAlpha b delta ∨ rawAlpha b delta ≤ 0

instance (b : Breath) (delta : ℚ) : Decidable (changeBreath b delta) := by
  unfold changeBreath; infer_instance

/-- Alpha after the boundary check (`self.alpha = 0.0` on a crossing). -/
def nextAlpha (b : Breath) (delta : ℚ) : ℚ :=
  if changeBreath b delta then 0 else rawAlpha b delta

/-- Direction after the boundary check (flipped on a crossing). -/
def nextDirection (b : Breath) (delta : ℚ) : BreathDirection :=
  if changeBreath b delta then b.direction.flip else b.direction

/-- `Breath::breath` (`src/main.rs` lines 74–99).  The method clamps speed
and depth, increments alpha by the clamped breathing rate, resets alpha
and flips the direction on a boundary crossing, then recomputes `amount`
by sampling `EasingCurve::new(0.0, depth, SmoothStep)` at the new alpha,
panicking (`unwrap_or_else(|| panic!(..))`) if the sample fails.

When the clamped speed and depth are both `0`, the f32 quotient
`0.0 / 0.0` is NaN; NaN survives `clamp` (Rust's `f32::clamp` returns NaN
for NaN input), makes `alpha` NaN, both boundary comparisons are false,
the sample of a NaN alpha is `None` (NaN is outside the curve domain), and
the `unwrap_or_else` panics — modelled as the `.error` result. -/
def breath (b : Breath) (delta : ℚ) : Except Unit Breath :=
  if clampQ b.speed 0 MAX_SPEED = 0 ∧ clampQ b.depth 0 MAX_DEPTH = 0 then
    .error ()
  else
    match easingSample 0 (clampQ b.depth 0 MAX_DEPTH) .smoothStep (nextAlpha b delta) with
    | some amount =>
        .ok ⟨clampQ b.speed 0 MAX_SPEED, nextAlpha b delta, amount,
          clampQ b.depth 0 MAX_DEPTH, nextDirection b delta⟩
    | none => .error ()

end Breath

/-- `WeaponSway` component (`src/main.rs`). -/
structure WeaponSway where
  max_sway : ℚ
  base : Vec3
  next : Vec3
deriving DecidableEq, Repr

namespace WeaponSway

/-- `WeaponSway::renew`: `self.base = self.next`. -/
def renew (ws : WeaponSway) : WeaponSway := { ws with base := ws.next }

/-- `WeaponSway::is_complete`: `self.base == self.next`. -/
def is_complete (ws : WeaponSway) : Prop := ws.base = ws.next

instance (ws : WeaponSway) : Decidable ws.is_complete := by
  unfold is_complete; infer_instance

/-- `WeaponSway::change`.  The three `rng.random_range` draws are modelled
by the `draw` parameter (an arbitrary vector supplied by the randomness
source); the early `return` when any `RangeInclusive` is empty
(`lo..=hi` is empty iff `hi < lo`) is kept. -/
def change (ws : WeaponSway) (breath : Breath) (draw : Vec3) : WeaponSway :=
  let effective_sway := ws.max_sway * breath.depth
  let half_sway := effective_sway / 2
  let sway_in := if breath.direction = .In then effective_sway else 0
  let sway_out := if breath.direction = .Out then effective_sway else 0
  if half_sway < -half_sway ∨ sway_out < -sway_in ∨
      effective_sway < -effective_sway then
    ws
  else
    { ws with next := draw }

/-- `WeaponSway::diff_from`:
`(origin + self.next) - (origin + self.base)`. -/
def diff_from (ws : WeaponSway) (origin : Vec3) : Vec3 :=
  let base_from_origin := origin + ws.base
  let next_from_origin := origin + ws.next
  next_from_origin - base_from_origin

/-- `WeaponSway::lerp_from`: `self.base + self.diff_from(origin) * alpha`. -/
def lerp_from (ws : WeaponSway) (origin : Vec3) (alpha : ℚ) : Vec3 :=
  ws.base + ws.diff_from origin * alpha

end WeaponSway

/-- The `WeaponSway` state update performed by the `weapon_sway` system
(`src/main.rs` lines 217–228): renew on a cycle boundary
(`breath.alpha >= 1.0 || breath.alpha == 0.0`), then draw a new target
when the sway is complete (`base == next`). -/
def weapon_sway_step (breath : Breath) (ws : WeaponSway) (draw : Vec3) :
    WeaponSway :=
  let ws1 := if 1 ≤ breath.alpha ∨ breath.alpha = 0 then ws.renew else ws
  if ws1.is_complete then ws1.change breath draw else ws1

/-- `PlayerWeaponTransformConfig` component (`src/main.rs`). -/
structure PlayerWeaponTransformConfig where
  hip : Vec3
  aim : Vec3
deriving DecidableEq, Repr

/-- `PlayerWeaponTransformConfig::aim_difference`: `self.aim - self.hip`. -/
def PlayerWeaponTransformConfig.aim_difference
    (c : PlayerWeaponTransformConfig) : Vec3 :=
  c.aim - c.hip

/-- `TranslationPipeline` component (`src/main.rs`). -/
structure TranslationPipeline where
  base_translation : Vec3
  additive_translations : List Vec3
deriving DecidableEq, Repr

namespace TranslationPipeline

/-- `TranslationPipeline::new`. -/
def new (translation : Vec3) : TranslationPipeline := ⟨translation, []⟩

/-- `TranslationPipeline::queue`: `self.additive_translations.push(t)`
(`Vec::push` appends at the back). -/
def queue (p : TranslationPipeline) (translation : Vec3) :
    TranslationPipeline :=
  { p with additive_translations := p.additive_translations ++ [translation] }

/-- `TranslationPipeline::latest`: folds the queued offsets onto the base
translation without modifying any field (the method takes `&mut self` but
only iterates). -/
def latest (p : TranslationPipeline) : Vec3 :=
  p.additive_translations.foldl (· + ·) p.base_translation

/-- `TranslationPipeline::apply`: the `while let Some(t) = ...pop()` loop
adds the queued offsets starting from the back of the `Vec` (hence the
fold over the reversed list) and empties the queue. -/
def apply (p : TranslationPipeline) : Vec3 × TranslationPipeline :=
  (p.additive_translations.reverse.foldl (· + ·) p.base_translation,
   { p with additive_translations := [] })

end TranslationPipeline

/-- `AIM_TIME` in `aim` (`0.05 = 1/20`, exact in f32 semantics it is the
nearest float to 1/20; modelled as the exact rational). -/
def AIM_TIME : ℚ := 1 / 20

/-- `UN_AIM_TIME` in `aim`. -/
def UN_AIM_TIME : ℚ := 1 / 20

/-- The `AdsAlpha` update inside the `aim` system (`src/main.rs` lines
303–316): step by `AIM_TIME` while the right mouse button is pressed,
by `-UN_AIM_TIME` otherwise, clamped to `[0, 1]`. -/
def adsStep (pressed : Bool) (ads : ℚ) : ℚ :=
  let step := if pressed then AIM_TIME else -UN_AIM_TIME
  clampQ (ads + step) 0 1

/-- The `aim` system's per-weapon body (`src/main.rs` lines 298–323):
update `AdsAlpha`, sample the chosen ease curve at the new alpha with
`unwrap_or(0.0)` as fallback, and queue `aim_difference() * curve_alpha`
on the translation pipeline. -/
def aim (pressed : Bool) (transform_config : PlayerWeaponTransformConfig)
    (pipe : TranslationPipeline) (ads : ℚ) : TranslationPipeline × ℚ :=
  let step := if pressed then AIM_TIME else -UN_AIM_TIME
  let ease := if 0 < step then EaseFunction.quarticOut
    else EaseFunction.quinticInOut
  let ads' := clampQ (ads + step) 0 1
  let curve_alpha := (easingSample 0 1 ease ads').getD 0
  (pipe.queue (transform_config.aim_difference * curve_alpha), ads')

/-- `MovementAction` event (`src/movement.rs`). -/
inductive MovementAction where
  | move (direction : Vec2)
  | jump
deriving DecidableEq, Repr

/-- The per-event velocity update of the `movement` system
(`src/movement.rs` lines 270–291): a `Move` event rotates the intent
`(direction.x, 0, -direction.y)` by the entity's rotation and adds it to
the horizontal velocity scaled by acceleration (times the sprint factor
when sprinting) and delta time; a `Jump` event sets the vertical velocity
to the jump impulse only when grounded. -/
def movement (movement_acceleration sprint_factor jump_impulse : ℚ)
    (is_grounded sprinting : Bool) (rotation : Quat) (delta_time : ℚ)
    (event : MovementAction) (linear_velocity : Vec3) : Vec3 :=
  match event with
  | .move direction =>
      let rotated_direction :=
        rotation.mulVec3 ⟨direction.x, 0, -direction.y⟩
      let accel := if sprinting then movement_acceleration * sprint_factor
        else movement_acceleration
      { linear_velocity with
        x := linear_velocity.x + rotated_direction.x * accel * delta_time,
        z := linear_velocity.z + rotated_direction.z * accel * delta_time }
  | .jump =>
      if is_grounded then { linear_velocity with y := jump_impulse }
      else linear_velocity

/-- `apply_movement_damping` (`src/movement.rs` lines 297–303):
`linear_velocity.x *= damping_factor; linear_velocity.z *= damping_factor`
— the y component is deliberately left alone. -/
def apply_movement_damping (damping_factor : ℚ) (linear_velocity : Vec3) :
    Vec3 :=
  { linear_velocity with
    x := linear_velocity.x * damping_factor,
    z := linear_velocity.z * damping_factor }

/-- Horizontal (XZ-plane) speed of a velocity vector, as a real number. -/
noncomputable def hspeed (v : Vec3) : ℝ :=
  Real.sqrt ((v.x : ℝ) ^ 2 + (v.z : ℝ) ^ 2)

/-! ## General lemmas about the embedded operations -/

theorem foldl_add_eq (l : List Vec3) (init : Vec3) :
    l.foldl (· + ·) init = init + l.sum := by
  induction l generalizing init with
  | nil => simp
  | cons h t ih => simp [List.foldl_cons, ih, List.sum_cons, add_assoc]

theorem TranslationPipeline.latest_eq (p : TranslationPipeline) :
    p.latest = p.base_translation + p.additive_translations.sum := by
  unfold latest
  exact foldl_add_eq _ _

theorem TranslationPipeline.apply_fst (p : TranslationPipeline) :
    (p.apply).1 = p.base_translation + p.additive_translations.sum := by
  unfold apply
  simp only [foldl_add_eq, List.sum_reverse]

theorem TranslationPipeline.apply_snd (p : TranslationPipeline) :
    (p.apply).2 = ⟨p.base_translation, []⟩ := rfl

theorem clampQ_nonneg (v hi : ℚ) : 0 ≤ clampQ v 0 hi := le_max_left 0 _

theorem clampQ_le (v lo hi : ℚ) (h : lo ≤ hi) : clampQ v lo hi ≤ hi := by
  unfold clampQ
  exact max_le h (min_le_right v hi)

theorem clampQ_eq_self (v lo hi : ℚ) (h1 : lo ≤ v) (h2 : v ≤ hi) :
    clampQ v lo hi = v := by
  unfold clampQ
  rw [min_eq_left h2, max_eq_right h1]

/-! ## Claim C2 — `TranslationPipeline::apply` flattens and clears -/

/-- C2: for every base translation `p` and queued offsets, `apply()`
returns the base plus the (order-independent) sum of the queue and leaves
an empty queue behind, so a second `apply()` with nothing queued in
between returns exactly `p`; concretely, with base `(0,0,0)` and queue
`[(1,0,0), (0,2,0)]` the first `apply()` returns `(1,2,0)` and the second
returns `(0,0,0)`. -/
theorem apply_sums_and_clears (p a b c : Vec3) (q q' : List Vec3) :
    ((TranslationPipeline.apply ⟨p, q⟩).1 = p + q.sum ∧
      (TranslationPipeline.apply ⟨p, q⟩).2 = ⟨p, []⟩ ∧
      ((TranslationPipeline.apply ⟨p, q⟩).2.apply).1 = p) ∧
    (q.Perm q' →
      (TranslationPipeline.apply ⟨p, q⟩).1 =
        (TranslationPipeline.apply ⟨p, q'⟩).1) ∧
    (TranslationPipeline.apply ⟨p, [a, b, c]⟩).1 = p + a + b + c ∧
    ((((TranslationPipeline.new ⟨0, 0, 0⟩).queue ⟨1, 0, 0⟩).queue
        ⟨0, 2, 0⟩).apply.1 = (⟨1, 2, 0⟩ : Vec3) ∧
      ((((TranslationPipeline.new ⟨0, 0, 0⟩).queue ⟨1, 0, 0⟩).queue
          ⟨0, 2, 0⟩).apply.2.apply.1 = (⟨0, 0, 0⟩ : Vec3))) := by
  refine ⟨⟨TranslationPipeline.apply_fst _, rfl, ?_⟩, ?_, ?_, ?_, ?_⟩
  · rw [TranslationPipeline.apply_snd]
    simp [TranslationPipeline.apply_fst]
  · intro hperm
    rw [TranslationPipeline.apply_fst, TranslationPipeline.apply_fst,
      hperm.sum_eq]
  · rw [TranslationPipeline.apply_fst]
    simp [List.sum_cons, add_assoc]
  · rw [TranslationPipeline.apply_fst]
    apply Vec3.ext' <;>
      simp [TranslationPipeline.new, TranslationPipeline.queue,
        List.sum_cons, Vec3.add_def]
  · rw [TranslationPipeline.apply_snd, TranslationPipeline.apply_fst]
    simp [TranslationPipeline.new, TranslationPipeline.queue]

/-- Witness for C2: the order-independence conjunct applied to the
concrete queues `[(1,0,0), (0,2,0)]` and `[(0,2,0), (1,0,0)]`. -/
theorem apply_sums_and_clears_witness :
    (TranslationPipeline.apply ⟨⟨0, 0, 0⟩, [⟨1, 0, 0⟩, ⟨0, 2, 0⟩]⟩).1 =
      (TranslationPipeline.apply ⟨⟨0, 0, 0⟩, [⟨0, 2, 0⟩, ⟨1, 0, 0⟩]⟩).1 :=
  (apply_sums_and_clears ⟨0, 0, 0⟩ 0 0 0 [⟨1, 0, 0⟩, ⟨0, 2, 0⟩]
      [⟨0, 2, 0⟩, ⟨1, 0, 0⟩]).2.1
    (List.Perm.swap (⟨0, 2, 0⟩ : Vec3) ⟨1, 0, 0⟩ [])

/-! ## Claim C9 — `TranslationPipeline::latest` is a read-only sum -/

/-- C9: `latest()` returns the base translation plus the sum of all
currently queued offsets; it is embedded as a plain function of the
pipeline state (its Rust body never writes through its `&mut self`), so
the base and the queue are untouched and the subsequent `apply()` still
sees every queued offset — its flattened value coincides with what
`latest()` reported. -/
theorem latest_read_only (p : TranslationPipeline) :
    p.latest = p.base_translation + p.additive_translations.sum ∧
    (p.apply).1 = p.latest ∧
    (p.apply).2.base_translation = p.base_translation := by
  refine ⟨TranslationPipeline.latest_eq p, ?_, rfl⟩
  rw [TranslationPipeline.latest_eq, TranslationPipeline.apply_fst]

/-! ## Claim C10 — `diff_from`/`lerp_from` are origin-independent -/

/-- C10: over the exact arithmetic of the embedding,
`WeaponSway::diff_from(origin)` equals `next - base` for every origin
(the origin term cancels), hence `lerp_from(origin, alpha)` equals
`base + (next - base) * alpha` and does not depend on the origin argument
— in particular the pending position read via `latest()` in `weapon_sway`
has no effect on the queued sway offset. -/
theorem diff_from_origin_independent (ws : WeaponSway) (o o' : Vec3)
    (alpha : ℚ) :
    ws.diff_from o = ws.next - ws.base ∧
    ws.lerp_from o alpha = ws.base + (ws.next - ws.base) * alpha ∧
    ws.lerp_from o alpha = ws.lerp_from o' alpha := by
  have hdiff : ∀ u : Vec3, ws.diff_from u = ws.next - ws.base := by
    intro u
    unfold WeaponSway.diff_from
    apply Vec3.ext' <;> simp
  refine ⟨hdiff o, ?_, ?_⟩
  · unfold WeaponSway.lerp_from
    rw [hdiff o]
  · unfold WeaponSway.lerp_from
    rw [hdiff o, hdiff o']

/-! ## Claim C3 — jump impulse iff grounded -/

/-- C3: processing a `Jump` intent sets the vertical velocity component to
the configured jump impulse exactly when `Grounded` is present; when it is
absent the event is dropped and the whole velocity (in particular its
vertical component) is unchanged. -/
theorem jump_impulse_iff_grounded (ma sf ji : ℚ)
    (grounded sprinting : Bool) (rot : Quat) (delta : ℚ) (v : Vec3) :
    (grounded = true →
      movement ma sf ji grounded sprinting rot delta .jump v =
        { v with y := ji }) ∧
    (grounded = false →
      movement ma sf ji grounded sprinting rot delta .jump v = v) := by
  cases grounded <;> simp [movement]

/-- Witness for C3: a grounded jump with the game's configured impulse `7`
sets the vertical component, and an airborne one leaves the velocity
unchanged. -/
theorem jump_impulse_iff_grounded_witness :
    movement 25 2 7 true false ⟨0, 0, 0, 1⟩ 1 .jump ⟨0, 0, 0⟩ =
        (⟨0, 7, 0⟩ : Vec3) ∧
    movement 25 2 7 false false ⟨0, 0, 0, 1⟩ 1 .jump ⟨0, 0, 0⟩ =
        (⟨0, 0, 0⟩ : Vec3) :=
  ⟨(jump_impulse_iff_grounded 25 2 7 true false ⟨0, 0, 0, 1⟩ 1 ⟨0, 0, 0⟩).1
      rfl,
    (jump_impulse_iff_grounded 25 2 7 false false ⟨0, 0, 0, 1⟩ 1
      ⟨0, 0, 0⟩).2 rfl⟩

/-! ## Claim C8 — sway base renewal and target redraw -/

/-- C8: on a cycle-boundary tick (the `weapon_sway` system sees
`breath.alpha >= 1.0 || breath.alpha == 0.0`) the sway base is snapped to
the target held before the tick; and a fresh random target is drawn
exactly when base equals next after that renewal (on a boundary tick the
renewal itself forces `base = next`, so a fresh target is always drawn
there, provided the draw ranges are nonempty, i.e.
`0 ≤ max_sway * depth`). -/
theorem WeaponSway.change_base (w : WeaponSway) (b : Breath) (d : Vec3) :
    (w.change b d).base = w.base := by
  unfold change
  dsimp only
  repeat' split
  all_goals rfl

theorem WeaponSway.change_next (w : WeaponSway) (b : Breath) (d : Vec3)
    (hsway : 0 ≤ w.max_sway * b.depth) : (w.change b d).next = d := by
  unfold change
  dsimp only
  repeat' split
  all_goals try rfl
  all_goals (rename_i h; rcases h with h | h | h <;> linarith)

theorem sway_base_renewal (breath : Breath) (ws : WeaponSway)
    (draw : Vec3) :
    ((1 ≤ breath.alpha ∨ breath.alpha = 0) →
      (weapon_sway_step breath ws draw).base = ws.next ∧
      (0 ≤ ws.max_sway * breath.depth →
        (weapon_sway_step breath ws draw).next = draw)) ∧
    (¬(1 ≤ breath.alpha ∨ breath.alpha = 0) →
      (weapon_sway_step breath ws draw).base = ws.base ∧
      (ws.base = ws.next → 0 ≤ ws.max_sway * breath.depth →
        (weapon_sway_step breath ws draw).next = draw) ∧
      (ws.base ≠ ws.next → weapon_sway_step breath ws draw = ws)) := by
  constructor
  · intro hb
    simp only [weapon_sway_step]
    rw [if_pos hb, if_pos (show ws.renew.is_complete from rfl)]
    exact ⟨by rw [WeaponSway.change_base]; rfl,
      fun hsway => WeaponSway.change_next _ _ _ hsway⟩
  · intro hb
    simp only [weapon_sway_step]
    rw [if_neg hb]
    by_cases hcomp : ws.is_complete
    · rw [if_pos hcomp]
      exact ⟨WeaponSway.change_base _ _ _,
        fun _ hsway => WeaponSway.change_next _ _ _ hsway,
        fun hne => absurd hcomp hne⟩
    · rw [if_neg hcomp]
      exact ⟨rfl, fun heq _ => absurd heq hcomp, fun _ => rfl⟩

/-! ## Breath lemmas -/

theorem Breath.flip_ne (d : BreathDirection) : d.flip ≠ d := by
  cases d <;> simp [BreathDirection.flip]

theorem Breath.nextAlpha_mem (b : Breath) (delta : ℚ) :
    0 ≤ Breath.nextAlpha b delta ∧ Breath.nextAlpha b delta ≤ 1 := by
  unfold Breath.nextAlpha
  split
  · exact ⟨le_refl 0, zero_le_one⟩
  · rename_i h
    unfold Breath.changeBreath at h
    push_neg at h
    exact ⟨le_of_lt h.2, le_of_lt h.1⟩

/-- When the clamped speed and depth are not both zero, `Breath::breath`
returns normally, with the expected fields. -/
theorem Breath.breath_ok (b : Breath) (delta : ℚ)
    (h : ¬(clampQ b.speed 0 Breath.MAX_SPEED = 0 ∧
      clampQ b.depth 0 Breath.MAX_DEPTH = 0)) :
    ∃ amt, b.breath delta = .ok ⟨clampQ b.speed 0 Breath.MAX_SPEED,
      Breath.nextAlpha b delta, amt, clampQ b.depth 0 Breath.MAX_DEPTH,
      Breath.nextDirection b delta⟩ := by
  have ha := Breath.nextAlpha_mem b delta
  refine ⟨0 + (clampQ b.depth 0 Breath.MAX_DEPTH - 0) *
    EaseFunction.eval .smoothStep (Breath.nextAlpha b delta), ?_⟩
  unfold Breath.breath
  rw [if_neg h]
  unfold easingSample
  rw [if_pos ⟨ha.1, ha.2⟩]

/-- Inversion: a normal return of `Breath::breath` determines every field
of the result. -/
theorem Breath.breath_ok_inv (b : Breath) (delta : ℚ) (b' : Breath)
    (h : b.breath delta = .ok b') :
    b'.speed = clampQ b.speed 0 Breath.MAX_SPEED ∧
    b'.alpha = Breath.nextAlpha b delta ∧
    b'.depth = clampQ b.depth 0 Breath.MAX_DEPTH ∧
    b'.direction = Breath.nextDirection b delta := by
  by_cases hc : clampQ b.speed 0 Breath.MAX_SPEED = 0 ∧
      clampQ b.depth 0 Breath.MAX_DEPTH = 0
  · unfold Breath.breath at h
    rw [if_pos hc] at h
    exact absurd h (by simp)
  · obtain ⟨amt, heq⟩ := Breath.breath_ok b delta hc
    rw [heq] at h
    injection h with h
    rw [← h]
    exact ⟨rfl, rfl, rfl, rfl⟩

/-! ## Claim C1 — sampler failure handling (corrected) -/

/-- Counterexample to C1 as stated: the `Breath` state with
`speed = 0` and `depth = 0` (reachable, since `player_breath_alter`
decrements speed and depth without clamping and `Breath::breath` clamps
both into range at the next tick) makes `Breath::breath` panic: the f32
breathing rate is `0.0 / 0.0 = NaN`, alpha becomes NaN, the smooth-step
sample of a NaN alpha fails, and the `unwrap_or_else(|| panic!(..))`
propagates a panic out of the per-tick update. -/
theorem breath_panics_at_zero_zero :
    Breath.breath ⟨0, 0, 0, 0, .Out⟩ 1 = .error () := by
  unfold Breath.breath
  rw [if_pos]
  constructor <;> norm_num [clampQ, Breath.MAX_SPEED, Breath.MAX_DEPTH]

/-- C1 (amended): the clamp-and-fall-back policy holds for the `aim`
system (`unwrap_or(0.0)`), but `Breath::breath` panics on sampler failure
rather than falling back; such a failure happens exactly in the degenerate
state whose clamped speed and depth are both zero.  In every other state
the update returns normally with the new alpha in `[0, 1]`, so its own
smooth-step sample and the `unwrap` in `weapon_sway` (which samples the
post-update alpha) cannot fail. -/
theorem breath_panic_only_at_zero_zero :
    (∀ (b : Breath) (delta : ℚ),
      ¬(clampQ b.speed 0 Breath.MAX_SPEED = 0 ∧
          clampQ b.depth 0 Breath.MAX_DEPTH = 0) →
        ∃ b', b.breath delta = .ok b' ∧ 0 ≤ b'.alpha ∧ b'.alpha ≤ 1 ∧
          (easingSample 0 1 .smoothStep b'.alpha).isSome) ∧
    (∀ t : ℚ, ¬(0 ≤ t ∧ t ≤ 1) →
      ∀ f : EaseFunction, (easingSample 0 1 f t).getD 0 = 0) := by
  constructor
  · intro b delta h
    obtain ⟨amt, heq⟩ := Breath.breath_ok b delta h
    have ha := Breath.nextAlpha_mem b delta
    refine ⟨_, heq, ha.1, ha.2, ?_⟩
    unfold easingSample
    rw [if_pos ⟨ha.1, ha.2⟩]
    rfl
  · intro t ht f
    unfold easingSample
    rw [if_neg ht]
    rfl

/-- Witness for C1 (amended): the player's initial breath state
(`speed = 0.75`, `depth = 1`) never panics and keeps alpha in `[0, 1]`. -/
theorem breath_panic_only_at_zero_zero_witness :
    ∃ b', Breath.breath ⟨3 / 4, 0, 0, 1, .Out⟩ 1 = .ok b' ∧
      0 ≤ b'.alpha ∧ b'.alpha ≤ 1 ∧
      (easingSample 0 1 .smoothStep b'.alpha).isSome :=
  breath_panic_only_at_zero_zero.1 ⟨3 / 4, 0, 0, 1, .Out⟩ 1 (by
    intro hc
    have := hc.2
    norm_num [clampQ, Breath.MAX_DEPTH] at this)

/-! ## Claim C4 — alpha stays in `[0, 1]`, direction flips once -/

/-- C4: for any tick of `Breath::breath` with non-negative delta and
speed/depth inside their clamped ranges, the resulting alpha lies in
`[0, 1]`; the direction changes exactly when the incremented alpha
crosses a boundary (reaches `≥ 1` or `≤ 0`), and then it changes by a
single flip (never twice, which would restore the original value). -/
theorem breath_alpha_invariant (b : Breath) (delta : ℚ) (b' : Breath)
    (hdelta : 0 ≤ delta) (hs0 : 0 ≤ b.speed) (hs1 : b.speed ≤ Breath.MAX_SPEED)
    (hd0 : 0 ≤ b.depth) (hd1 : b.depth ≤ Breath.MAX_DEPTH)
    (hok : b.breath delta = .ok b') :
    (0 ≤ b'.alpha ∧ b'.alpha ≤ 1) ∧
    (b'.direction ≠ b.direction ↔ Breath.changeBreath b delta) ∧
    (Breath.changeBreath b delta → b'.direction = b.direction.flip) := by
  obtain ⟨-, halpha, -, hdir⟩ := Breath.breath_ok_inv b delta b' hok
  refine ⟨?_, ?_, ?_⟩
  · rw [halpha]
    exact Breath.nextAlpha_mem b delta
  · rw [hdir]
    unfold Breath.nextDirection
    constructor
    · intro hne
      by_contra hc
      rw [if_neg hc] at hne
      exact hne rfl
    · intro hc
      rw [if_pos hc]
      exact Breath.flip_ne b.direction
  · intro hc
    rw [hdir]
    unfold Breath.nextDirection
    rw [if_pos hc]

/-- Witness for C4: the initial state ticked by one second has alpha
`0.75 ∈ [0, 1]` and an unchanged direction (no boundary crossing). -/
theorem breath_alpha_invariant_witness :
    ∃ b', Breath.breath ⟨3 / 4, 0, 0, 1, .Out⟩ 1 = .ok b' ∧
      0 ≤ b'.alpha ∧ b'.alpha ≤ 1 := by
  obtain ⟨amt, heq⟩ := Breath.breath_ok ⟨3 / 4, 0, 0, 1, .Out⟩ 1 (by
    intro hc
    have := hc.2
    norm_num [clampQ, Breath.MAX_DEPTH] at this)
  have h := breath_alpha_invariant ⟨3 / 4, 0, 0, 1, .Out⟩ 1 _
    (by norm_num) (by norm_num) (by norm_num [Breath.MAX_SPEED])
    (by norm_num) (by norm_num [Breath.MAX_DEPTH]) heq
  exact ⟨_, heq, h.1⟩

/-! ## Claim C7 — the per-tick alpha increment and reset -/

/-- C7: each breath tick increments alpha by
`min(speed / depth, MAX_SPEED) * delta`, and when the incremented alpha
reaches `≥ 1` or `≤ 0` it is reset to `0` with the direction flipping;
concretely, from the game's initial state (`speed = 0.75`, `depth = 1`)
with one-second ticks, alpha goes `0 → 0.75` (direction unchanged) and
then resets to `0` with exactly one flip (`Out → In`). -/
theorem breath_increment_and_reset :
    (∀ (b : Breath) (delta : ℚ), 0 ≤ b.speed → b.speed ≤ Breath.MAX_SPEED →
      0 < b.depth → b.depth ≤ Breath.MAX_DEPTH →
      Breath.rawAlpha b delta =
        b.alpha + min (b.speed / b.depth) Breath.MAX_SPEED * delta ∧
      ∃ amt, b.breath delta = .ok ⟨b.speed,
        if 1 ≤ Breath.rawAlpha b delta ∨ Breath.rawAlpha b delta ≤ 0 then 0
          else Breath.rawAlpha b delta,
        amt, b.depth,
        if 1 ≤ Breath.rawAlpha b delta ∨ Breath.rawAlpha b delta ≤ 0 then
          b.direction.flip else b.direction⟩) ∧
    (∃ b₁ b₂ : Breath, Breath.breath ⟨3 / 4, 0, 0, 1, .Out⟩ 1 = .ok b₁ ∧
      b₁.alpha = 3 / 4 ∧ b₁.direction = .Out ∧
      b₁.breath 1 = .ok b₂ ∧ b₂.alpha = 0 ∧ b₂.direction = .In) := by
  have key : ∀ (b : Breath) (delta : ℚ), 0 ≤ b.speed →
      b.speed ≤ Breath.MAX_SPEED → 0 < b.depth → b.depth ≤ Breath.MAX_DEPTH →
      Breath.rawAlpha b delta =
        b.alpha + min (b.speed / b.depth) Breath.MAX_SPEED * delta ∧
      ∃ amt, b.breath delta = .ok ⟨b.speed,
        if 1 ≤ Breath.rawAlpha b delta ∨ Breath.rawAlpha b delta ≤ 0 then 0
          else Breath.rawAlpha b delta,
        amt, b.depth,
        if 1 ≤ Breath.rawAlpha b delta ∨ Breath.rawAlpha b delta ≤ 0 then
          b.direction.flip else b.direction⟩ := by
    intro b delta hs0 hs1 hd0 hd1
    have hsc : clampQ b.speed 0 Breath.MAX_SPEED = b.speed :=
      clampQ_eq_self _ _ _ hs0 hs1
    have hdc : clampQ b.depth 0 Breath.MAX_DEPTH = b.depth :=
      clampQ_eq_self _ _ _ (le_of_lt hd0) hd1
    have hrate : Breath.breathingRate b.speed b.depth =
        min (b.speed / b.depth) Breath.MAX_SPEED := by
      unfold Breath.breathingRate
      rw [if_neg (ne_of_gt hd0)]
      unfold clampQ
      rw [max_eq_right]
      exact le_min (div_nonneg hs0 (le_of_lt hd0))
        (by norm_num [Breath.MAX_SPEED])
    have hraw : Breath.rawAlpha b delta =
        b.alpha + min (b.speed / b.depth) Breath.MAX_SPEED * delta := by
      unfold Breath.rawAlpha
      rw [hsc, hdc, hrate]
    refine ⟨hraw, ?_⟩
    obtain ⟨amt, heq⟩ := Breath.breath_ok b delta (by
      intro hc
      rw [hdc] at hc
      exact absurd hc.2 (ne_of_gt hd0))
    refine ⟨amt, ?_⟩
    rw [heq, hsc, hdc]
    unfold Breath.nextAlpha Breath.nextDirection Breath.changeBreath
    rfl
  refine ⟨key, ?_⟩
  have h1 := key ⟨3 / 4, 0, 0, 1, .Out⟩ 1 (by norm_num)
    (by norm_num [Breath.MAX_SPEED]) (by norm_num)
    (by norm_num [Breath.MAX_DEPTH])
  have hraw1 : Breath.rawAlpha ⟨3 / 4, 0, 0, 1, .Out⟩ 1 = 3 / 4 := by
    rw [h1.1]
    norm_num [Breath.MAX_SPEED]
  obtain ⟨amt1, heq1⟩ := h1.2
  rw [hraw1] at heq1
  norm_num at heq1
  have h2 := key ⟨3 / 4, 3 / 4, amt1, 1, .Out⟩ 1 (by norm_num)
    (by norm_num [Breath.MAX_SPEED]) (by norm_num)
    (by norm_num [Breath.MAX_DEPTH])
  have hraw2 : Breath.rawAlpha ⟨3 / 4, 3 / 4, amt1, 1, .Out⟩ 1 = 3 / 2 := by
    rw [h2.1]
    norm_num [Breath.MAX_SPEED]
  obtain ⟨amt2, heq2⟩ := h2.2
  rw [hraw2] at heq2
  norm_num at heq2
  exact ⟨⟨3 / 4, 3 / 4, amt1, 1, .Out⟩, ⟨3 / 4, 0, amt2, 1, BreathDirection.flip .Out⟩,
    heq1, rfl, rfl, heq2, rfl, rfl⟩

/-- Witness for C7: the general conjunct applied to the initial state. -/
theorem breath_increment_and_reset_witness :
    Breath.rawAlpha ⟨3 / 4, 0, 0, 1, .Out⟩ 1 =
      0 + min ((3 : ℚ) / 4 / 1) Breath.MAX_SPEED * 1 :=
  (breath_increment_and_reset.1 ⟨3 / 4, 0, 0, 1, .Out⟩ 1 (by norm_num)
    (by norm_num [Breath.MAX_SPEED]) (by norm_num)
    (by norm_num [Breath.MAX_DEPTH])).1

/-! ## Claim C6 — AdsAlpha convergence -/

theorem adsStep_mem (p : Bool) (v : ℚ) :
    0 ≤ adsStep p v ∧ adsStep p v ≤ 1 := by
  unfold adsStep clampQ
  exact ⟨le_max_left 0 _, max_le zero_le_one (min_le_right _ 1)⟩

theorem adsStep_true_iter (a : ℚ) (h0 : 0 ≤ a) (h1 : a ≤ 1) (n : ℕ) :
    (adsStep true)^[n] a = min 1 (a + n * AIM_TIME) := by
  induction n with
  | zero => simp [min_eq_right h1]
  | succ k ih =>
      rw [Function.iterate_succ_apply', ih]
      unfold adsStep clampQ AIM_TIME
      have hk : (0 : ℚ) ≤ (k : ℚ) := Nat.cast_nonneg k
      push_cast
      rcases le_total (a + (k : ℚ) * (1 / 20)) 1 with h | h <;>
        simp only [min_def, max_def] <;> split_ifs <;> linarith

theorem adsStep_false_iter (a : ℚ) (h0 : 0 ≤ a) (h1 : a ≤ 1) (n : ℕ) :
    (adsStep false)^[n] a = max 0 (a - n * UN_AIM_TIME) := by
  induction n with
  | zero => simp [max_eq_right h0]
  | succ k ih =>
      rw [Function.iterate_succ_apply', ih]
      unfold adsStep clampQ UN_AIM_TIME
      have hk : (0 : ℚ) ≤ (k : ℚ) := Nat.cast_nonneg k
      push_cast
      rcases le_total 0 (a - (k : ℚ) * (1 / 20)) with h | h <;>
        simp only [min_def, max_def] <;> split_ifs <;> linarith

/-- C6: starting from any `AdsAlpha` in `[0, 1]`, holding the aim button
for at least `1 / step_size = 20` consecutive ticks drives the alpha to
exactly `1`, and releasing it for at least `20` consecutive ticks drives
it to exactly `0`; each single step is clamped to `[0, 1]`, and the alpha
updated by the `aim` system is precisely this clamped step. -/
theorem ads_alpha_convergence (a : ℚ) (n : ℕ) (h0 : 0 ≤ a) (h1 : a ≤ 1)
    (hn : 20 ≤ n) :
    (adsStep true)^[n] a = 1 ∧ (adsStep false)^[n] a = 0 ∧
    (∀ (p : Bool) (v : ℚ), 0 ≤ adsStep p v ∧ adsStep p v ≤ 1) ∧
    (∀ (p : Bool) (cfg : PlayerWeaponTransformConfig)
      (pipe : TranslationPipeline) (v : ℚ), (aim p cfg pipe v).2 = adsStep p v) := by
  have hn' : (20 : ℚ) ≤ (n : ℚ) := by exact_mod_cast hn
  refine ⟨?_, ?_, adsStep_mem, fun p cfg pipe v => rfl⟩
  · rw [adsStep_true_iter a h0 h1 n]
    apply min_eq_left
    unfold AIM_TIME
    linarith
  · rw [adsStep_false_iter a h0 h1 n]
    apply max_eq_left
    unfold UN_AIM_TIME
    linarith

/-- Witness for C6: from alpha `0`, twenty held ticks reach exactly `1`;
from alpha `1`, twenty released ticks reach exactly `0`. -/
theorem ads_alpha_convergence_witness :
    (adsStep true)^[20] (0 : ℚ) = 1 ∧ (adsStep false)^[20] (0 : ℚ) = 0 :=
  ⟨(ads_alpha_convergence 0 20 le_rfl zero_le_one le_rfl).1,
    (ads_alpha_convergence 0 20 le_rfl zero_le_one le_rfl).2.1⟩

/-! ## Claim C5 — horizontal speed bound and exact damping -/

theorem sqrt_triangle2 (a b c d : ℝ) :
    Real.sqrt ((a + c) ^ 2 + (b + d) ^ 2) ≤
      Real.sqrt (a ^ 2 + b ^ 2) + Real.sqrt (c ^ 2 + d ^ 2) := by
  have hcs : a * c + b * d ≤
      Real.sqrt (a ^ 2 + b ^ 2) * Real.sqrt (c ^ 2 + d ^ 2) := by
    rw [← Real.sqrt_mul (by positivity)]
    calc a * c + b * d ≤ |a * c + b * d| := le_abs_self _
      _ = Real.sqrt ((a * c + b * d) ^ 2) := (Real.sqrt_sq_eq_abs _).symm
      _ ≤ Real.sqrt ((a ^ 2 + b ^ 2) * (c ^ 2 + d ^ 2)) :=
          Real.sqrt_le_sqrt (by nlinarith [sq_nonneg (a * d - b * c)])
  have h1 : Real.sqrt (a ^ 2 + b ^ 2) ^ 2 = a ^ 2 + b ^ 2 :=
    Real.sq_sqrt (by positivity)
  have h2 : Real.sqrt (c ^ 2 + d ^ 2) ^ 2 = c ^ 2 + d ^ 2 :=
    Real.sq_sqrt (by positivity)
  calc Real.sqrt ((a + c) ^ 2 + (b + d) ^ 2)
      ≤ Real.sqrt ((Real.sqrt (a ^ 2 + b ^ 2) +
          Real.sqrt (c ^ 2 + d ^ 2)) ^ 2) :=
        Real.sqrt_le_sqrt (by nlinarith [hcs, h1, h2])
    _ = Real.sqrt (a ^ 2 + b ^ 2) + Real.sqrt (c ^ 2 + d ^ 2) :=
        Real.sqrt_sq (by positivity)

theorem sqrt_scale (k a b : ℝ) (hk : 0 ≤ k) :
    Real.sqrt ((a * k) ^ 2 + (b * k) ^ 2) = Real.sqrt (a ^ 2 + b ^ 2) * k := by
  rw [show (a * k) ^ 2 + (b * k) ^ 2 = (a ^ 2 + b ^ 2) * k ^ 2 by ring,
    Real.sqrt_mul (by positivity), Real.sqrt_sq hk]

/-- One acceleration step moves the 2-D point by a vector of norm at most
`A`, provided the 3-D direction `(RX, RY, RZ)` has norm at most one. -/
theorem accel_step_bound (X Z RX RY RZ DX DY A : ℝ) (hA : 0 ≤ A)
    (hnorm : RX ^ 2 + RY ^ 2 + RZ ^ 2 = DX ^ 2 + DY ^ 2)
    (hd : DX ^ 2 + DY ^ 2 ≤ 1) :
    Real.sqrt ((X + RX * A) ^ 2 + (Z + RZ * A) ^ 2) ≤
      Real.sqrt (X ^ 2 + Z ^ 2) + A := by
  have h1 := sqrt_triangle2 X Z (RX * A) (RZ * A)
  have h2 : Real.sqrt ((RX * A) ^ 2 + (RZ * A) ^ 2) =
      Real.sqrt (RX ^ 2 + RZ ^ 2) * A := sqrt_scale A RX RZ hA
  have h3 : Real.sqrt (RX ^ 2 + RZ ^ 2) ≤ 1 :=
    Real.sqrt_le_one.mpr (by nlinarith [sq_nonneg RY])
  have h4 : Real.sqrt (RX ^ 2 + RZ ^ 2) * A ≤ 1 * A :=
    mul_le_mul_of_nonneg_right h3 hA
  calc Real.sqrt ((X + RX * A) ^ 2 + (Z + RZ * A) ^ 2)
      ≤ Real.sqrt (X ^ 2 + Z ^ 2) +
        Real.sqrt ((RX * A) ^ 2 + (RZ * A) ^ 2) := h1
    _ ≤ Real.sqrt (X ^ 2 + Z ^ 2) + A := by rw [h2]; linarith

/-- C5: with a unit rotation quaternion, a movement intent of magnitude at
most one, non-negative delta time and non-negative acceleration constants,
the horizontal speed produced by the `movement` update is at most the
prior horizontal speed plus the acceleration applied this tick
(acceleration, times the sprint factor when sprinting, times delta time);
and the damping pass multiplies the `x` and `z` velocity components by
exactly the damping factor while leaving `y` untouched. -/
theorem movement_speed_bound (rotation : Quat) (direction : Vec2) (v : Vec3)
    (ma sf ji delta : ℚ) (grounded sprinting : Bool)
    (hunit : rotation.w ^ 2 + rotation.x ^ 2 + rotation.y ^ 2 +
      rotation.z ^ 2 = 1)
    (hdir : direction.x ^ 2 + direction.y ^ 2 ≤ 1)
    (hdelta : 0 ≤ delta) (hma : 0 ≤ ma) (hsf : 0 ≤ sf) :
    hspeed (movement ma sf ji grounded sprinting rotation delta
        (.move direction) v) ≤
      hspeed v + (((if sprinting then ma * sf else ma) * delta : ℚ) : ℝ) ∧
    (∀ (f : ℚ) (w : Vec3),
      (apply_movement_damping f w).x = w.x * f ∧
      (apply_movement_damping f w).y = w.y ∧
      (apply_movement_damping f w).z = w.z * f) := by
  refine ⟨?_, fun f w => ⟨rfl, rfl, rfl⟩⟩
  rcases hrdef : rotation.mulVec3 ⟨direction.x, 0, -direction.y⟩
    with ⟨rx, ry, rz⟩
  have hid := Quat.mulVec3_normSq rotation ⟨direction.x, 0, -direction.y⟩
  rw [hrdef] at hid
  dsimp only at hid
  rw [hunit] at hid
  have hnorm : rx ^ 2 + ry ^ 2 + rz ^ 2 =
      direction.x ^ 2 + direction.y ^ 2 := by
    rw [hid]; ring
  have hnormR : (rx : ℝ) ^ 2 + (ry : ℝ) ^ 2 + (rz : ℝ) ^ 2 =
      ((direction.x : ℝ)) ^ 2 + ((direction.y : ℝ)) ^ 2 := by
    exact_mod_cast hnorm
  have hdR : ((direction.x : ℝ)) ^ 2 + ((direction.y : ℝ)) ^ 2 ≤ 1 := by
    exact_mod_cast hdir
  have hmove : movement ma sf ji grounded sprinting rotation delta
      (.move direction) v =
      { v with
        x := v.x + rx * (if sprinting then ma * sf else ma) * delta,
        z := v.z + rz * (if sprinting then ma * sf else ma) * delta } := by
    simp only [movement]
    rw [hrdef]
  rw [hmove]
  set qa : ℚ := if sprinting then ma * sf else ma with hqa
  have hqa0 : (0 : ℚ) ≤ qa := by
    rw [hqa]
    split
    · exact mul_nonneg hma hsf
    · exact hma
  unfold hspeed
  dsimp only
  push_cast
  have hA : (0 : ℝ) ≤ (qa : ℝ) * (delta : ℝ) :=
    mul_nonneg (by exact_mod_cast hqa0) (by exact_mod_cast hdelta)
  have main := accel_step_bound (v.x : ℝ) (v.z : ℝ) (rx : ℝ) (ry : ℝ)
    (rz : ℝ) (direction.x : ℝ) (direction.y : ℝ) ((qa : ℝ) * (delta : ℝ))
    hA hnormR hdR
  have e1 : (v.x : ℝ) + (rx : ℝ) * (qa : ℝ) * (delta : ℝ) =
      (v.x : ℝ) + (rx : ℝ) * ((qa : ℝ) * (delta : ℝ)) := by ring
  have e2 : (v.z : ℝ) + (rz : ℝ) * (qa : ℝ) * (delta : ℝ) =
      (v.z : ℝ) + (rz : ℝ) * ((qa : ℝ) * (delta : ℝ)) := by ring
  rw [e1, e2]
  exact main

/-- Witness for C5: the identity rotation, full-forward intent, the game's
configured acceleration `25` and a one-second tick from rest. -/
theorem movement_speed_bound_witness :
    hspeed (movement 25 2 7 true false ⟨0, 0, 0, 1⟩ 1
        (.move ⟨1, 0⟩) ⟨0, 0, 0⟩) ≤
      hspeed ⟨0, 0, 0⟩ +
        (((if false then (25 : ℚ) * 2 else 25) * 1 : ℚ) : ℝ) :=
  (movement_speed_bound ⟨0, 0, 0, 1⟩ ⟨1, 0⟩ ⟨0, 0, 0⟩ 25 2 7 1 true false
    (by norm_num) (by norm_num) (by norm_num) (by norm_num) (by norm_num)).1

/-- Witness for C8: a boundary tick (`alpha = 1`) with the game's sway
configuration snaps the base to the old target and installs the drawn
vector as the new target. -/
theorem sway_base_renewal_witness :
    (weapon_sway_step ⟨3 / 4, 1, 0, 1, .In⟩ ⟨1, ⟨0, 0, 0⟩, ⟨1, 2, 3⟩⟩
        ⟨4, 5, 6⟩).base = (⟨1, 2, 3⟩ : Vec3) ∧
    (weapon_sway_step ⟨3 / 4, 1, 0, 1, .In⟩ ⟨1, ⟨0, 0, 0⟩, ⟨1, 2, 3⟩⟩
        ⟨4, 5, 6⟩).next = (⟨4, 5, 6⟩ : Vec3) := by
  have h := (sway_base_renewal ⟨3 / 4, 1, 0, 1, .In⟩
    ⟨1, ⟨0, 0, 0⟩, ⟨1, 2, 3⟩⟩ ⟨4, 5, 6⟩).1 (Or.inl le_rfl)
  exact ⟨h.1, h.2 (by norm_num)⟩

end BevyEnergy
